import Mathlib

/-!
Shallow embedding of `src/generateCRUDservices.js` from octobusjs/octobus-rethinkdb.

Records are JavaScript objects modelled as ordered association lists of
field-name/value pairs; the value type is flat because every payload in the
CRUD layer is a one-level document.  Store round trips (RethinkDB) are made
explicit: each embedded operation takes the store response (or the store
state) as an argument, mirroring the promise results the source code reads.
-/

namespace OctobusRethinkDB

/-- JavaScript primitive values as they occur in CRUD payloads. -/
inductive JSVal where
  | null
  | undefined
  | bool (b : Bool)
  | num (n : Int)
  | str (s : String)
deriving DecidableEq, Repr

/-- A JavaScript object: ordered field/value pairs with unique keys. -/
abbrev Record := List (String × JSVal)

/-- Property access `rec[name]`; a missing key reads as `undefined`. -/
def getField (rec : Record) (name : String) : JSVal :=
  match rec.find? (fun p => p.1 == name) with
  | some p => p.2
  | none => .undefined

/-- Key-presence test (`name in rec`). -/
def hasField (rec : Record) (name : String) : Bool :=
  rec.any (fun p => p.1 == name)

/-- `Object.assign` of one key: overwrite in place when present, append otherwise. -/
def setField (rec : Record) (name : String) (v : JSVal) : Record :=
  if hasField rec name then
    rec.map (fun p => if p.1 == name then (p.1, v) else p)
  else rec ++ [(name, v)]

/-- lodash `_.omit(rec, name)`: drop the key. -/
def omitField (rec : Record) (name : String) : Record :=
  rec.filter (fun p => p.1 != name)

/-- JavaScript truthiness of a primitive value (`!v` negated). -/
def truthy : JSVal → Bool
  | .null => false
  | .undefined => false
  | .bool b => b
  | .num n => n != 0
  | .str s => s != ""

/-- A save payload: a single document or an array of documents (`Array.isArray`). -/
inductive Payload where
  | single (rec : Record)
  | batch (recs : List Record)
deriving DecidableEq, Repr

/-- `data.id` in JavaScript: reading `.id` on an array yields `undefined`. -/
def payloadId : Payload → JSVal
  | .single rec => getField rec "id"
  | .batch _ => .undefined

/-- Result shape produced by the persistence layer of `save`.
`mergedArray` is the object produced by `Object.assign(\x7b\x7d, arrayValue, \x7bid\x7d)`:
the array's index keys ("0", "1", ...) each holding a record, plus the id. -/
inductive SaveOutcome where
  | single (rec : Record)
  | batch (recs : List Record)
  | mergedArray (indexed : List (String × Record)) (id : String)
deriving DecidableEq, Repr

/-- Errors thrown by the embedded operations. -/
inductive SaveErr where
  | malformedInsert
  | typeErr
  | missingId
deriving DecidableEq, Repr

/-- `data.map((item, index) => Object.assign(\x7b\x7d, item, \x7bid: keys[index]\x7d))`:
walk the records pairing each with the key at its index; an index past the
end of `keys` reads `undefined`. -/
def attachIds : List Record → List String → List Record
  | [], _ => []
  | r :: rs, [] => setField r "id" .undefined :: attachIds rs []
  | r :: rs, k :: ks => setField r "id" (.str k) :: attachIds rs ks

/-- Enumerable own properties copied from an array by `Object.assign`:
the index keys "0", "1", ... each mapped to the element. -/
def enumIndexed (recs : List Record) : List (String × Record) :=
  recs.enum.map (fun p => (toString p.1, p.2))

/-- `doInsert` from the source: run the insert, demand a `generated_keys`
array in the response (`none` models a missing/non-array field), then either
merge the single key into `data` (`generated_keys.length === 1`) or map over
`data` attaching keys positionally.  `data.map` on a non-array throws. -/
def doInsert (data : Payload) (generated_keys : Option (List String)) :
    Except SaveErr SaveOutcome :=
  match generated_keys with
  | none => .error .malformedInsert
  | some [k] =>
    match data with
    | .single rec => .ok (.single (setField rec "id" (.str k)))
    | .batch recs => .ok (.mergedArray (enumIndexed recs) k)
  | some keys =>
    match data with
    | .single _ => .error .typeErr
    | .batch recs => .ok (.batch (attachIds recs keys))

/-- One entry of the `changes` array returned by an update with
`returnChanges: true`. -/
structure Change where
  old_val : Record
  new_val : Record
deriving DecidableEq, Repr

/-- `doUpdate`'s continuation on the store response: an empty `changes`
array falls back to the submitted payload, otherwise `changes[0].new_val`. -/
def doUpdate (data : Record) (changes : List Change) : Record :=
  match changes with
  | [] => data
  | c :: _ => c.new_val

/-- `doSave` from the source: `data.id ? doUpdate(data.id, data) : doInsert(data)`.
An array payload reads `.id` as `undefined` (falsy), so it always inserts;
the update branch is only reachable for a single document.  The store
responses for the two possible round trips are passed explicitly. -/
def doSave (data : Payload) (generated_keys : Option (List String))
    (changes : List Change) : Except SaveErr SaveOutcome :=
  match data with
  | .single rec =>
    if truthy (getField rec "id") then .ok (.single (doUpdate rec changes))
    else doInsert (.single rec) generated_keys
  | .batch recs => doInsert (.batch recs) generated_keys

/-- Field types for the validation capability. -/
inductive FieldType where
  | strT
  | numT
  | boolT
  | anyT
deriving DecidableEq, Repr

/-- One declared schema field. -/
structure FieldSpec where
  name : String
  ftype : FieldType
  required : Bool
deriving DecidableEq, Repr

/-- A validation schema: the declared fields in declaration order. -/
abbrev Schema := List FieldSpec

/-- Coercion under `convert: true` (numeric strings parse as numbers);
`none` is a failed coercion. -/
def coerce : FieldType → JSVal → Option JSVal
  | .strT, .str s => some (.str s)
  | .numT, .num n => some (.num n)
  | .numT, .str s => (s.toInt?).map JSVal.num
  | .boolT, .bool b => some (.bool b)
  | .anyT, v => some v
  | _, _ => none

/-- Worker for `joiAttempt`: process the declared fields in order; a missing
required field or a failed coercion rejects, optional missing fields are
skipped, and only declared fields reach the output (`stripUnknown: true`). -/
def joiAttemptGo (payload : Record) : Schema → Except String Record
  | [] => .ok []
  | spec :: rest =>
    if getField payload spec.name = .undefined then
      if spec.required then .error (spec.name ++ " is required")
      else joiAttemptGo payload rest
    else
      match coerce spec.ftype (getField payload spec.name) with
      | none => .error (spec.name ++ " is invalid")
      | some v' => (joiAttemptGo payload rest).map (fun out => (spec.name, v') :: out)

/-- The validation capability required of the schema library
(`Joi.attempt(payload, schema, \x7bconvert: true, stripUnknown: true\x7d)`): validate
and coerce each declared field, strip undeclared fields, reject on a missing
required field or failed coercion. -/
def joiAttempt (payload : Record) (schema : Schema) : Except String Record :=
  joiAttemptGo payload schema

/-- The `validate` operation: identity without a schema; element-wise on an
array; otherwise strip the identifier with `_.omit(params, 'id')` and run
the schema. -/
def validate (schema : Option Schema) (params : Payload) : Except String Payload :=
  match schema with
  | none => .ok params
  | some sch =>
    match params with
    | .batch recs =>
      (recs.mapM (fun item => joiAttempt (omitField item "id") sch)).map .batch
    | .single rec => (joiAttempt (omitField rec "id") sch).map .single

/-- Observable events of one `save` call: the before-hook, the persistence
round trip, and the after-hook. -/
inductive SaveEvent where
  | before (data : Payload)
  | persist (data : Payload)
  | after (result : SaveOutcome)
deriving DecidableEq, Repr

/-- How a `save` call fails: the validate dispatch rejected, or persistence did. -/
inductive SaveFail where
  | validationFail (e : String)
  | persistFail (e : SaveErr)
deriving DecidableEq, Repr

/-- The `save` pipeline: dispatch to `validate` (its promise result is the
first argument — other subscribers may intercept it, so it is kept
abstract), then fire the before-hook with the validated payload, run
`doSave` (the persistence function, second argument), and fire the
after-hook with the persisted result.  Returns the promise outcome together
with the ordered trace of events that fired. -/
def save (validated : Except String Payload)
    (doSaveFn : Payload → Except SaveErr SaveOutcome) :
    Except SaveFail SaveOutcome × List SaveEvent :=
  match validated with
  | .error e => (.error (.validationFail e), [])
  | .ok data =>
    match doSaveFn data with
    | .error e => (.error (.persistFail e), [.before data, .persist data])
    | .ok result => (.ok result, [.before data, .persist data, .after result])

/-- Recognizer for before-hook events. -/
def isBeforeEvent : SaveEvent → Bool
  | .before _ => true
  | _ => false

/-- Recognizer for after-hook events. -/
def isAfterEvent : SaveEvent → Bool
  | .after _ => true
  | _ => false

/-- The `filters` argument of `query.filter(...)`: a predicate function, a
single-field equality object, or the spec example's single-field
greater-or-equal comparison object. -/
inductive FilterSpec where
  | fieldGte (field : String) (bound : Int)
  | fieldEq (field : String) (v : JSVal)
  | pred (f : Record → Bool)

/-- Whether a record passes a filter. -/
def matchesFilter : FilterSpec → Record → Bool
  | .fieldGte f b, rec =>
    match getField rec f with
    | .num m => decide (b ≤ m)
    | _ => false
  | .fieldEq f v, rec => decide (getField rec f = v)
  | .pred p, rec => p rec

/-- The query-parameter object accepted by `find`/`remove`: every field
optional, absence meaning "no constraint". -/
structure QueryParams where
  filters : Option FilterSpec := none
  orderBy : Option String := none
  limit : Option Nat := none
  skip : Option Nat := none
  fields : Option (List String) := none

/-- The argument of `paramsToQuery`: a bare key string or a parameter object. -/
inductive FindParams where
  | key (s : String)
  | params (p : QueryParams)

/-- Abstract ReQL query emitted against the bound table. -/
inductive Query where
  | table
  | get (base : Query) (key : String)
  | filter (base : Query) (f : FilterSpec)
  | orderBy (base : Query) (field : String)
  | skip (base : Query) (n : Nat)
  | limit (base : Query) (n : Nat)
  | pluck (base : Query) (fields : List String)

/-- `paramsToQuery` from the source: a string is a direct `get`; otherwise
narrow the whole-table scan with each truthy field, in the source's order
filters, orderBy, skip, limit, fields.  JavaScript truthiness drops
`orderBy: ""`, `skip: 0` and `limit: 0`; a present `fields` array is always
truthy. -/
def paramsToQuery : FindParams → Query
  | .key s => .get .table s
  | .params p =>
    let q := Query.table
    let q := match p.filters with
      | some f => Query.filter q f
      | none => q
    let q := match p.orderBy with
      | some o => if o != "" then Query.orderBy q o else q
      | none => q
    let q := match p.skip with
      | some n => if n != 0 then Query.skip q n else q
      | none => q
    let q := match p.limit with
      | some n => if n != 0 then Query.limit q n else q
      | none => q
    let q := match p.fields with
      | some fs => Query.pluck q fs
      | none => q
    q

/-- Rank of each value type in RethinkDB's cross-type sort order
(alphabetical by type name: booleans, null, numbers, strings; a missing
field sorts last). -/
def typeRank : JSVal → Nat
  | .bool _ => 0
  | .null => 1
  | .num _ => 2
  | .str _ => 3
  | .undefined => 4

/-- Ascending comparison of field values, mirroring the store's ordering. -/
def jsLe (a b : JSVal) : Bool :=
  match a, b with
  | .num m, .num n => decide (m ≤ n)
  | .str s, .str t => decide (s ≤ t)
  | .bool x, .bool y => !x || y
  | _, _ => decide (typeRank a ≤ typeRank b)

/-- Stable insertion of a record into a run already sorted by `field`. -/
def insertAsc (field : String) (r : Record) : List Record → List Record
  | [] => [r]
  | x :: xs =>
    if jsLe (getField x field) (getField r field) then x :: insertAsc field r xs
    else r :: x :: xs

/-- Stable ascending sort by one field (the store's `orderBy`). -/
def sortByField (field : String) (recs : List Record) : List Record :=
  recs.foldl (fun acc r => insertAsc field r acc) []

/-- Executable store semantics of a query over the table contents:
`filter` keeps matching records, `orderBy` sorts ascending, `skip` drops,
`limit` takes, `pluck` projects onto the named fields, `get` looks up by
primary key. -/
def interp : Query → List Record → List Record
  | .table, recs => recs
  | .get q k, recs =>
    ((interp q recs).filter (fun r => decide (getField r "id" = .str k))).take 1
  | .filter q f, recs => (interp q recs).filter (matchesFilter f)
  | .orderBy q fld, recs => sortByField fld (interp q recs)
  | .skip q n, recs => (interp q recs).drop n
  | .limit q n, recs => (interp q recs).take n
  | .pluck q fs, recs => (interp q recs).map (fun r => r.filter (fun p => fs.contains p.1))

/-- The `find` operation: build the query from the params and run it
against the table, returning the result sequence. -/
def find (fp : FindParams) (table : List Record) : List Record :=
  interp (paramsToQuery fp) table

/-- Narrowing step for `filters` as the spec states it. -/
def filterStep (f : Option FilterSpec) (recs : List Record) : List Record :=
  match f with
  | some fs => recs.filter (matchesFilter fs)
  | none => recs

/-- Narrowing step for `orderBy` as the spec states it. -/
def orderStep (o : Option String) (recs : List Record) : List Record :=
  match o with
  | some s => if s != "" then sortByField s recs else recs
  | none => recs

/-- Narrowing step for `skip` as the spec states it. -/
def skipStep (o : Option Nat) (recs : List Record) : List Record :=
  match o with
  | some n => if n != 0 then recs.drop n else recs
  | none => recs

/-- Narrowing step for `limit` as the spec states it. -/
def limitStep (o : Option Nat) (recs : List Record) : List Record :=
  match o with
  | some n => if n != 0 then recs.take n else recs
  | none => recs

/-- Narrowing step for the `fields` projection as the spec states it. -/
def fieldsStep (o : Option (List String)) (recs : List Record) : List Record :=
  match o with
  | some fs => recs.map (fun r => r.filter (fun p => fs.contains p.1))
  | none => recs

/-- RethinkDB `get(id).update(patch, \x7breturnChanges: true\x7d)` against table
contents: merge the patch into the record with the given id; a missing
record or a merge equal to the old record reports no changes. -/
def storeUpdate (store : List Record) (id : JSVal) (patch : Record) :
    List Record × List Change :=
  match store.find? (fun r => decide (getField r "id" = id)) with
  | none => (store, [])
  | some old =>
    let merged := patch.foldl (fun acc p => setField acc p.1 p.2) old
    if merged = old then (store, [])
    else (store.map (fun r => if decide (getField r "id" = id) then merged else r),
          [⟨old, merged⟩])

/-- Result of running the `update` operation: its promise outcome, the store
contents afterwards, and how many store round trips were issued. -/
structure OpResult where
  outcome : Except SaveErr Record
  store : List Record
  storeCalls : Nat
deriving Repr

/-- The `update` operation from the source: a falsy `params.id` throws
before any store call; otherwise update with `returnChanges: true` and
return `changes.length ? changes[0].new_val : params`. -/
def update (store : List Record) (params : Record) : OpResult :=
  if truthy (getField params "id") = false then
    { outcome := .error .missingId, store := store, storeCalls := 0 }
  else
    let res := storeUpdate store (getField params "id") (omitField params "id")
    { outcome := .ok (match res.2 with
        | [] => params
        | c :: _ => c.new_val),
      store := res.1, storeCalls := 1 }

/-- `doUpdate` wired to the store: one update round trip, falling back to
the submitted payload when the store reports no change. -/
def doUpdateSt (store : List Record) (id : JSVal) (data : Record) :
    List Record × Record :=
  let res := storeUpdate store id data
  (res.1, doUpdate data res.2)

/-- ReQL index expressions built by the normalizer. -/
inductive RExpr where
  | row
  | rowField (base : RExpr) (name : String)
deriving DecidableEq, Repr

/-- One value pushed into the `indexCreate` argument list. -/
inductive IndexArg where
  | expr (e : RExpr)
  | exprList (es : List RExpr)
  | opts (o : List (String × JSVal))
  | nullArg
deriving DecidableEq, Repr

/-- The four structural shapes an index specification can take (plus `null`,
which JavaScript's `typeof` also reports as "object"). -/
inductive IndexSpec where
  | strSpec (s : String)
  | arrSpec (fields : List String)
  | objSpec (o : List (String × JSVal))
  | nullSpec
  | funcSpec (f : Unit → RExpr)

/-- `options.includes('.')`: whether the string carries a path separator. -/
def includesDot (s : String) : Bool := s.toList.contains '.'

/-- `options.split('.').reduce((acc, field) => acc(field), r.row)`: fold the
path segments into a chain of field accesses starting from `r.row`. -/
def pathToExpr (s : String) : RExpr :=
  (s.splitOn ".").foldl (fun acc f => RExpr.rowField acc f) RExpr.row

/-- `typeof options === 'string' && options.includes('.')`. -/
def isDottedString : IndexSpec → Bool
  | .strSpec s => includesDot s
  | _ => false

/-- `Array.isArray(options)`. -/
def jsIsArray : IndexSpec → Bool
  | .arrSpec _ => true
  | _ => false

/-- `typeof options === 'object'` (arrays and `null` included). -/
def jsTypeofObject : IndexSpec → Bool
  | .arrSpec _ => true
  | .objSpec _ => true
  | .nullSpec => true
  | _ => false

/-- `typeof options === 'function'`. -/
def jsTypeofFunction : IndexSpec → Bool
  | .funcSpec _ => true
  | _ => false

/-- `processIndexOptions` from the source: start from an empty list and run
the four independent `if` blocks in order, each pushing its normalized form
when its structural check passes. -/
def processIndexOptions (options : IndexSpec) : List IndexArg :=
  let processedOptions : List IndexArg := []
  let processedOptions := match options with
    | .strSpec s =>
      if includesDot s then processedOptions ++ [.expr (pathToExpr s)]
      else processedOptions
    | _ => processedOptions
  let processedOptions := match options with
    | .arrSpec fields =>
      processedOptions ++ [.exprList (fields.map (fun f => RExpr.rowField RExpr.row f))]
    | _ => processedOptions
  let processedOptions := match options with
    | .objSpec o => processedOptions ++ [.opts o]
    | .nullSpec => processedOptions ++ [.nullArg]
    | _ => processedOptions
  let processedOptions := match options with
    | .funcSpec f => processedOptions ++ [.expr (f ())]
    | _ => processedOptions
  processedOptions

/-- How many of the four normalization branches fire for a specification. -/
def branchesFired (options : IndexSpec) : Nat :=
  (if isDottedString options then 1 else 0) +
  (if jsIsArray options then 1 else 0) +
  (if jsTypeofObject options && !jsIsArray options then 1 else 0) +
  (if jsTypeofFunction options then 1 else 0)

/-- Store-side schema state: the table list and the (table, index) pairs. -/
structure DbState where
  tables : List String
  indexes : List (String × String)
deriving DecidableEq, Repr

/-- Creation calls issued against the store during bootstrap. -/
inductive DbCall where
  | tableCreate (name : String)
  | indexCreate (table : String) (name : String) (args : List IndexArg)
deriving DecidableEq, Repr

/-- The index names present on one table (`indexList`). -/
def indexesOf (s : DbState) (tbl : String) : List String :=
  s.indexes.filterMap (fun p => if p.1 = tbl then some p.2 else none)

/-- `createTableIfNotExists`: list tables, create the table only when absent. -/
def createTableIfNotExists (s : DbState) (tableName : String) : DbState × List DbCall :=
  if tableName ∈ s.tables then (s, [])
  else ({ s with tables := s.tables ++ [tableName] }, [.tableCreate tableName])

/-- `createIndexesIfNotExist`: snapshot `indexList`, then issue one
`indexCreate(indexName, ...processIndexOptions(spec))` per declared index
name absent from the snapshot; present names are left untouched. -/
def createIndexesIfNotExist (s : DbState) (tbl : String)
    (cfg : List (String × IndexSpec)) : DbState × List DbCall :=
  let existing := indexesOf s tbl
  let missing := cfg.filter (fun p => !decide (p.1 ∈ existing))
  ({ s with indexes := s.indexes ++ missing.map (fun p => (tbl, p.1)) },
   missing.map (fun p => DbCall.indexCreate tbl p.1 (processIndexOptions p.2)))

/-- `createTable`: ensure the table, then ensure its declared indexes. -/
def createTable (s : DbState) (tbl : String) (cfg : List (String × IndexSpec)) :
    DbState × List DbCall :=
  let t := createTableIfNotExists s tbl
  let i := createIndexesIfNotExist t.1 tbl cfg
  (i.1, t.2 ++ i.2)

/-- Demo payload used to exercise the save pipeline. -/
def demoPayload : Payload := .single [("firstName", JSVal.str "A")]

/-- Demo persisted result for the save pipeline. -/
def demoOutcome : SaveOutcome :=
  .single [("firstName", JSVal.str "A"), ("id", JSVal.str "k")]

/-- Demo persistence function that always succeeds with `demoOutcome`. -/
def demoPersist : Payload → Except SaveErr SaveOutcome := fun _ => .ok demoOutcome

/-- The schema of the spec's validation example: `firstName`/`lastName`,
both required strings. -/
def demoSchema : Schema :=
  [⟨"firstName", .strT, true⟩, ⟨"lastName", .strT, true⟩]

/-- On records without an identifier, `Object.assign` appends the id key. -/
lemma setField_id_of_not_hasField (r : Record) (v : JSVal) (h : hasField r "id" = false) :
    setField r "id" v = r ++ [("id", v)] := by
  simp [setField, h]

/-- With one key per record, positional attachment is a `zip`. -/
lemma attachIds_eq_zip (recs : List Record) (keys : List String)
    (hlen : keys.length = recs.length) (hid : ∀ r ∈ recs, hasField r "id" = false) :
    attachIds recs keys =
      (recs.zip keys).map (fun p => p.1 ++ [("id", JSVal.str p.2)]) := by
  induction recs generalizing keys with
  | nil => cases keys <;> simp [attachIds] at hlen ⊢
  | cons r rs ih =>
    cases keys with
    | nil => simp at hlen
    | cons k ks =>
      simp only [attachIds, List.zip_cons_cons, List.map_cons]
      rw [setField_id_of_not_hasField r _ (hid r (by simp)),
        ih ks (by simpa using hlen) (fun r hr => hid r (by simp [hr]))]

/-- Reading a key none of the record's pairs carries yields `undefined`. -/
lemma getField_eq_undef_of_keys_ne (rec : Record) (name : String)
    (h : ∀ p ∈ rec, p.1 ≠ name) : getField rec name = .undefined := by
  induction rec with
  | nil => rfl
  | cons p ps ih =>
    have hp : (p.1 == name) = false := by
      simpa using h p (by simp)
    simp only [getField, List.find?] at ih ⊢
    rw [hp]
    exact ih (fun q hq => h q (by simp [hq]))

/-- Omitting a key makes it read as `undefined`. -/
lemma getField_omitField_self (rec : Record) (name : String) :
    getField (omitField rec name) name = .undefined := by
  apply getField_eq_undef_of_keys_ne
  intro p hp
  have := (List.mem_filter.mp hp).2
  simpa using this

/-- C1 (counterexample) — inserting a singleton array of one identifierless
record does not return an array: the `generated_keys.length === 1` branch
merges the array itself with the id via `Object.assign`, producing a plain
object with an index key "0". -/
theorem C1_counterexample :
    doInsert (.batch [[("v", JSVal.num 1)]]) (some ["k0"]) =
      .ok (.mergedArray [("0", [("v", JSVal.num 1)])] "k0") := rfl

/-- C1 (amended): for every array of payloads without identifiers whose
length is not one, with the store returning one generated key per record in
submission order, the insert branch returns an array of the same length in
which the record at position `i` is the input record at position `i` with
the `i`-th generated key attached as its `id` field. -/
theorem C1_batch_insert_positional (recs : List Record) (keys : List String)
    (hn : recs.length ≠ 1) (hlen : keys.length = recs.length)
    (hid : ∀ r ∈ recs, hasField r "id" = false) :
    doInsert (.batch recs) (some keys) =
      .ok (.batch ((recs.zip keys).map (fun p => p.1 ++ [("id", JSVal.str p.2)]))) := by
  cases keys with
  | nil =>
    have hr : recs = [] := List.length_eq_zero.mp (by simpa using hlen.symm)
    subst hr
    rfl
  | cons k ks =>
    cases ks with
    | nil =>
      exfalso
      apply hn
      simpa using hlen.symm
    | cons k2 ks2 =>
      have hstep : doInsert (.batch recs) (some (k :: k2 :: ks2)) =
          .ok (.batch (attachIds recs (k :: k2 :: ks2))) := rfl
      rw [hstep, attachIds_eq_zip recs _ hlen hid]

/-- C1 (witness): a two-record batch with two keys gets them positionally. -/
theorem C1_batch_insert_positional_witness :
    doInsert (.batch [[("a", JSVal.num 1)], [("b", JSVal.num 2)]]) (some ["x", "y"]) =
      .ok (.batch [[("a", JSVal.num 1), ("id", JSVal.str "x")],
                   [("b", JSVal.num 2), ("id", JSVal.str "y")]]) :=
  C1_batch_insert_positional [[("a", JSVal.num 1)], [("b", JSVal.num 2)]] ["x", "y"]
    (by decide) (by decide) (by decide)

/-- C2: in every `save` call the before-hook fires exactly once, with the
validated payload, strictly before the persistence round trip, and the
after-hook fires exactly once with the persisted result after persistence
succeeds; when the validate dispatch rejects neither hook fires, and when
persistence fails the after-hook never fires. -/
theorem C2_hook_firing (vr : Except String Payload)
    (doSaveFn : Payload → Except SaveErr SaveOutcome) :
    (∀ e, vr = .error e → (save vr doSaveFn).2 = []) ∧
    (∀ data, vr = .ok data →
      ((save vr doSaveFn).2.countP isBeforeEvent = 1 ∧
       (save vr doSaveFn).2.head? = some (.before data) ∧
       (∀ e, doSaveFn data = .error e →
         (save vr doSaveFn).2 = [.before data, .persist data] ∧
         (save vr doSaveFn).2.countP isAfterEvent = 0) ∧
       (∀ result, doSaveFn data = .ok result →
         (save vr doSaveFn).2 = [.before data, .persist data, .after result] ∧
         (save vr doSaveFn).2.countP isAfterEvent = 1))) := by
  refine ⟨fun e he => by simp [save, he], fun data hd => ?_⟩
  subst hd
  cases hf : doSaveFn data with
  | error e =>
    refine ⟨?_, ?_, ?_, ?_⟩ <;>
      simp [save, hf, isBeforeEvent, isAfterEvent, List.countP, List.countP.go]
  | ok result =>
    refine ⟨?_, ?_, ?_, ?_⟩ <;>
      simp [save, hf, isBeforeEvent, isAfterEvent, List.countP, List.countP.go]

/-- C2 (witness): a successful save fires before, persist, after, in order. -/
theorem C2_hook_firing_witness :
    (save (.ok demoPayload) demoPersist).2 =
      [.before demoPayload, .persist demoPayload, .after demoOutcome] :=
  (((C2_hook_firing (.ok demoPayload) demoPersist).2 demoPayload rfl).2.2.2
    demoOutcome rfl).1

/-- Every key of a validation output is the name of a declared field. -/
lemma joiAttemptGo_keys_declared (payload : Record) (sch : Schema) (out : Record)
    (h : joiAttemptGo payload sch = .ok out) :
    ∀ p ∈ out, ∃ spec ∈ sch, p.1 = spec.name := by
  induction sch generalizing out with
  | nil =>
    simp only [joiAttemptGo] at h
    injection h with h
    subst h
    simp
  | cons spec rest ih =>
    simp only [joiAttemptGo] at h
    by_cases hu : getField payload spec.name = .undefined
    · rw [if_pos hu] at h
      by_cases hr : spec.required = true
      · rw [if_pos hr] at h; simp at h
      · rw [if_neg hr] at h
        intro p hp
        obtain ⟨s, hs, hn⟩ := ih out h p hp
        exact ⟨s, by simp [hs], hn⟩
    · rw [if_neg hu] at h
      cases hc : coerce spec.ftype (getField payload spec.name) with
      | none => rw [hc] at h; simp at h
      | some v' =>
        rw [hc] at h
        cases hrec : joiAttemptGo payload rest with
        | error e => rw [hrec] at h; simp [Except.map] at h
        | ok out' =>
          rw [hrec] at h
          simp only [Except.map] at h
          injection h with h
          subst h
          intro p hp
          rcases List.mem_cons.mp hp with hp | hp
          · exact ⟨spec, by simp, by rw [hp]⟩
          · obtain ⟨s, hs, hn⟩ := ih out' hrec p hp
            exact ⟨s, by simp [hs], hn⟩

/-- When the payload carries no identifier, no output pair is keyed "id"
(the identifier can only re-enter through the payload, never the schema). -/
lemma joiAttemptGo_no_id (payload : Record) (sch : Schema) (out : Record)
    (hid : getField payload "id" = .undefined)
    (h : joiAttemptGo payload sch = .ok out) :
    ∀ p ∈ out, p.1 ≠ "id" := by
  induction sch generalizing out with
  | nil =>
    simp only [joiAttemptGo] at h
    injection h with h
    subst h
    simp
  | cons spec rest ih =>
    simp only [joiAttemptGo] at h
    by_cases hu : getField payload spec.name = .undefined
    · rw [if_pos hu] at h
      by_cases hr : spec.required = true
      · rw [if_pos hr] at h; simp at h
      · rw [if_neg hr] at h
        exact ih out h
    · rw [if_neg hu] at h
      cases hc : coerce spec.ftype (getField payload spec.name) with
      | none => rw [hc] at h; simp at h
      | some v' =>
        rw [hc] at h
        cases hrec : joiAttemptGo payload rest with
        | error e => rw [hrec] at h; simp [Except.map] at h
        | ok out' =>
          rw [hrec] at h
          simp only [Except.map] at h
          injection h with h
          subst h
          intro p hp
          rcases List.mem_cons.mp hp with hp | hp
          · subst hp
        -- spec.name = "id" would force getField payload "id" = .undefined,
        -- contradicting the non-undefined branch
            intro hname
            have hname' : spec.name = "id" := hname
            rw [hname'] at hu
            exact hu hid
          · exact ih out' hrec p hp

/-- A declared required field missing from the payload rejects validation. -/
lemma joiAttemptGo_required_missing (payload : Record) (sch : Schema)
    (spec : FieldSpec) (hmem : spec ∈ sch) (hreq : spec.required = true)
    (hmiss : getField payload spec.name = .undefined) :
    ∀ out, joiAttemptGo payload sch ≠ .ok out := by
  induction sch with
  | nil => cases hmem
  | cons s rest ih =>
    intro out h
    simp only [joiAttemptGo] at h
    rcases List.mem_cons.mp hmem with hs | hs
    · subst hs
      rw [if_pos hmiss, if_pos hreq] at h
      simp at h
    · by_cases hu : getField payload s.name = .undefined
      · rw [if_pos hu] at h
        by_cases hr : s.required = true
        · rw [if_pos hr] at h; simp at h
        · rw [if_neg hr] at h
          exact ih hs out h
      · rw [if_neg hu] at h
        cases hc : coerce s.ftype (getField payload s.name) with
        | none => rw [hc] at h; simp at h
        | some v' =>
          rw [hc] at h
          cases hrec : joiAttemptGo payload rest with
          | error e => rw [hrec] at h; simp [Except.map] at h
          | ok out' => exact ih hs out' hrec

/-- A declared field present with an uncoercible value rejects validation. -/
lemma joiAttemptGo_coerce_fail (payload : Record) (sch : Schema)
    (spec : FieldSpec) (hmem : spec ∈ sch)
    (hne : getField payload spec.name ≠ .undefined)
    (hc0 : coerce spec.ftype (getField payload spec.name) = none) :
    ∀ out, joiAttemptGo payload sch ≠ .ok out := by
  induction sch with
  | nil => cases hmem
  | cons s rest ih =>
    intro out h
    simp only [joiAttemptGo] at h
    rcases List.mem_cons.mp hmem with hs | hs
    · subst hs
      rw [if_neg hne, hc0] at h
      simp at h
    · by_cases hu : getField payload s.name = .undefined
      · rw [if_pos hu] at h
        by_cases hr : s.required = true
        · rw [if_pos hr] at h; simp at h
        · rw [if_neg hr] at h
          exact ih hs out h
      · rw [if_neg hu] at h
        cases hc : coerce s.ftype (getField payload s.name) with
        | none => rw [hc] at h; simp at h
        | some v' =>
          rw [hc] at h
          cases hrec : joiAttemptGo payload rest with
          | error e => rw [hrec] at h; simp [Except.map] at h
          | ok out' => exact ih hs out' hrec

/-- A declared field present with a coercible value reaches the output. -/
lemma joiAttemptGo_retains (payload : Record) (sch : Schema)
    (spec : FieldSpec) (v' : JSVal) (hmem : spec ∈ sch)
    (hne : getField payload spec.name ≠ .undefined)
    (hc0 : coerce spec.ftype (getField payload spec.name) = some v')
    (out : Record) (h : joiAttemptGo payload sch = .ok out) :
    (spec.name, v') ∈ out := by
  induction sch generalizing out with
  | nil => cases hmem
  | cons s rest ih =>
    simp only [joiAttemptGo] at h
    rcases List.mem_cons.mp hmem with hs | hs
    · subst hs
      rw [if_neg hne, hc0] at h
      cases hrec : joiAttemptGo payload rest with
      | error e => rw [hrec] at h; simp [Except.map] at h
      | ok out' =>
        rw [hrec] at h
        simp only [Except.map] at h
        injection h with h
        subst h
        simp
    · by_cases hu : getField payload s.name = .undefined
      · rw [if_pos hu] at h
        by_cases hr : s.required = true
        · rw [if_pos hr] at h; simp at h
        · rw [if_neg hr] at h
          exact ih hs out h
      · rw [if_neg hu] at h
        cases hc : coerce s.ftype (getField payload s.name) with
        | none => rw [hc] at h; simp at h
        | some w =>
          rw [hc] at h
          cases hrec : joiAttemptGo payload rest with
          | error e => rw [hrec] at h; simp [Except.map] at h
          | ok out' =>
            rw [hrec] at h
            simp only [Except.map] at h
            injection h with h
            subst h
            exact List.mem_cons_of_mem _ (ih hs out' hrec)

/-- Inversion of `validate` on a single payload. -/
lemma validate_single_ok (sch : Schema) (rec out : Record)
    (h : validate (some sch) (.single rec) = .ok (.single out)) :
    joiAttempt (omitField rec "id") sch = .ok out := by
  simp only [validate] at h
  cases hj : joiAttempt (omitField rec "id") sch with
  | error e => rw [hj] at h; simp [Except.map] at h
  | ok a =>
    rw [hj] at h
    simp only [Except.map] at h
    injection h with h
    injection h with h
    rw [h]

/-- Validation failure propagates: if the schema run rejects, `validate`
on the single payload rejects. -/
lemma validate_single_err (sch : Schema) (rec : Record)
    (hj : ∀ out, joiAttempt (omitField rec "id") sch ≠ .ok out) :
    ∀ res, validate (some sch) (.single rec) ≠ .ok res := by
  intro res h
  simp only [validate] at h
  cases hj2 : joiAttempt (omitField rec "id") sch with
  | error e => rw [hj2] at h; simp [Except.map] at h
  | ok a => exact hj a hj2

/-- C3: with a schema configured, `save` always takes the insert branch —
the validate step strips the identifier before the insert-or-update
decision, so the validated payload's `id` is never truthy and `doSave`
equals `doInsert`, whatever the payload carried. -/
theorem C3_schema_forces_insert (sch : Schema) (params data : Payload)
    (generated_keys : Option (List String)) (changes : List Change)
    (h : validate (some sch) params = .ok data) :
    truthy (payloadId data) = false ∧
    doSave data generated_keys changes = doInsert data generated_keys := by
  cases params with
  | batch recs =>
    simp only [validate] at h
    cases hm : recs.mapM (fun item => joiAttempt (omitField item "id") sch) with
    | error e => rw [hm] at h; simp [Except.map] at h
    | ok outs =>
      rw [hm] at h
      simp only [Except.map] at h
      injection h with h
      subst h
      exact ⟨rfl, rfl⟩
  | single rec =>
    simp only [validate] at h
    cases hj : joiAttempt (omitField rec "id") sch with
    | error e => rw [hj] at h; simp [Except.map] at h
    | ok out =>
      rw [hj] at h
      simp only [Except.map] at h
      injection h with h
      subst h
      have hnid : ∀ p ∈ out, p.1 ≠ "id" :=
        joiAttemptGo_no_id _ _ _ (getField_omitField_self rec "id") hj
      have hg : getField out "id" = .undefined := getField_eq_undef_of_keys_ne out "id" hnid
      refine ⟨by simp [payloadId, hg, truthy], ?_⟩
      simp [doSave, hg, truthy]

/-- C3 (witness): a payload carrying an id, validated against the demo
schema, still goes to the insert branch. -/
theorem C3_schema_forces_insert_witness :
    truthy (payloadId (.single [("firstName", JSVal.str "A"), ("lastName", JSVal.str "B")])) = false ∧
    doSave (.single [("firstName", JSVal.str "A"), ("lastName", JSVal.str "B")]) (some ["k"]) [] =
      doInsert (.single [("firstName", JSVal.str "A"), ("lastName", JSVal.str "B")]) (some ["k"]) :=
  C3_schema_forces_insert demoSchema
    (.single [("id", JSVal.num 7), ("firstName", JSVal.str "A"), ("lastName", JSVal.str "B")])
    (.single [("firstName", JSVal.str "A"), ("lastName", JSVal.str "B")])
    (some ["k"]) [] rfl

/-- C6: validating a non-array payload against a configured schema strips
the identifier and every undeclared field, retains declared coercible
fields, and rejects (rather than silently dropping) on a missing required
field or a failed coercion; in particular the spec's example payload
validates to exactly its declared fields. -/
theorem C6_validation_strips :
    (validate (some demoSchema)
        (.single [("id", JSVal.num 5), ("extra", JSVal.str "x"),
                  ("firstName", JSVal.str "A"), ("lastName", JSVal.str "B")]) =
      .ok (.single [("firstName", JSVal.str "A"), ("lastName", JSVal.str "B")])) ∧
    (∀ sch rec out, validate (some sch) (.single rec) = .ok (.single out) →
      getField out "id" = .undefined ∧ ∀ p ∈ out, ∃ spec ∈ sch, p.1 = spec.name) ∧
    (∀ sch rec spec, spec ∈ sch → spec.required = true →
      getField (omitField rec "id") spec.name = .undefined →
      ∀ res, validate (some sch) (.single rec) ≠ .ok res) ∧
    (∀ sch rec spec, spec ∈ sch →
      getField (omitField rec "id") spec.name ≠ .undefined →
      coerce spec.ftype (getField (omitField rec "id") spec.name) = none →
      ∀ res, validate (some sch) (.single rec) ≠ .ok res) ∧
    (∀ sch rec spec v' out, spec ∈ sch →
      getField (omitField rec "id") spec.name ≠ .undefined →
      coerce spec.ftype (getField (omitField rec "id") spec.name) = some v' →
      validate (some sch) (.single rec) = .ok (.single out) →
      (spec.name, v') ∈ out) := by
  refine ⟨rfl, ?_, ?_, ?_, ?_⟩
  · intro sch rec out h
    have hj := validate_single_ok sch rec out h
    refine ⟨getField_eq_undef_of_keys_ne out "id"
      (joiAttemptGo_no_id _ _ _ (getField_omitField_self rec "id") hj), ?_⟩
    exact joiAttemptGo_keys_declared _ _ _ hj
  · intro sch rec spec hmem hreq hmiss
    exact validate_single_err sch rec
      (joiAttemptGo_required_missing _ _ spec hmem hreq hmiss)
  · intro sch rec spec hmem hne hc
    exact validate_single_err sch rec
      (joiAttemptGo_coerce_fail _ _ spec hmem hne hc)
  · intro sch rec spec v' out hmem hne hc h
    exact joiAttemptGo_retains _ _ spec v' hmem hne hc out (validate_single_ok sch rec out h)

/-- C6 (witness): the example validates as stated and a missing required
field rejects. -/
theorem C6_validation_strips_witness :
    (validate (some demoSchema)
        (.single [("id", JSVal.num 5), ("extra", JSVal.str "x"),
                  ("firstName", JSVal.str "A"), ("lastName", JSVal.str "B")]) =
      .ok (.single [("firstName", JSVal.str "A"), ("lastName", JSVal.str "B")])) ∧
    (∀ res, validate (some demoSchema) (.single [("firstName", JSVal.str "A")]) ≠ .ok res) :=
  ⟨C6_validation_strips.1,
   C6_validation_strips.2.2.1 demoSchema [("firstName", JSVal.str "A")]
     ⟨"lastName", .strT, true⟩ (by decide) rfl rfl⟩

/-- C4: for every non-string parameter object the built query narrows the
whole-table scan by applying, in this fixed order and only for truthy
fields, filters then orderBy then skip then limit then the fields
projection; and the spec's concrete example yields exactly `[ \x7bv: 3\x7d ]`. -/
theorem C4_query_composition :
    (∀ p recs, find (.params p) recs =
      fieldsStep p.fields (limitStep p.limit (skipStep p.skip
        (orderStep p.orderBy (filterStep p.filters recs))))) ∧
    find (.params { filters := some (.fieldGte "v" 2), orderBy := some "v",
                    skip := some 1, limit := some 1 })
        [[("v", JSVal.num 1)], [("v", JSVal.num 2)], [("v", JSVal.num 3)]] =
      [[("v", JSVal.num 3)]] := by
  constructor
  · intro p recs
    obtain ⟨f, o, l, s, fs⟩ := p
    cases f <;> cases o <;> cases l <;> cases s <;> cases fs <;>
      simp only [find, paramsToQuery, filterStep, orderStep, skipStep, limitStep,
        fieldsStep, interp] <;>
      (try split_ifs) <;> simp [interp]
  · rfl

/-- When the store reports an empty change set, the table is untouched. -/
lemma storeUpdate_store_of_changes_nil (store : List Record) (id : JSVal)
    (patch : Record) (h : (storeUpdate store id patch).2 = []) :
    (storeUpdate store id patch).1 = store := by
  simp only [storeUpdate] at h ⊢
  cases hf : store.find? (fun r => decide (getField r "id" = id)) with
  | none => simp [hf]
  | some old =>
    rw [hf] at h
    by_cases hm : (patch.foldl (fun acc p => setField acc p.1 p.2) old) = old
    · simp [hm]
    · simp [hm] at h

/-- C5: for every update — the `update` operation or `doUpdate`, save's
update branch — where the store reports an empty change set, the operation
returns the submitted payload itself (and leaves the table as it was), so
the caller always receives a record shape. -/
theorem C5_noop_update_returns_payload :
    (∀ store params, truthy (getField params "id") = true →
      (storeUpdate store (getField params "id") (omitField params "id")).2 = [] →
      update store params =
        { outcome := .ok params, store := store, storeCalls := 1 }) ∧
    (∀ store id data, (storeUpdate store id data).2 = [] →
      doUpdateSt store id data = (store, data)) := by
  constructor
  · intro store params ht hch
    have hs := storeUpdate_store_of_changes_nil store _ _ hch
    simp [update, ht, hch, hs]
  · intro store id data hch
    have hs := storeUpdate_store_of_changes_nil store id data hch
    simp [doUpdateSt, doUpdate, hch, hs]

/-- C5 (witness): updating a record with its current values returns the
submitted payload. -/
theorem C5_noop_update_returns_payload_witness :
    update [[("id", JSVal.str "a"), ("x", JSVal.num 1)]]
        [("id", JSVal.str "a"), ("x", JSVal.num 1)] =
      { outcome := .ok [("id", JSVal.str "a"), ("x", JSVal.num 1)],
        store := [[("id", JSVal.str "a"), ("x", JSVal.num 1)]], storeCalls := 1 } :=
  C5_noop_update_returns_payload.1 [[("id", JSVal.str "a"), ("x", JSVal.num 1)]]
    [("id", JSVal.str "a"), ("x", JSVal.num 1)] rfl rfl

/-- C7: an update payload lacking an id field fails immediately with the
missing-identifier error, with zero store round trips and the store state
unchanged. -/
theorem C7_missing_id_rejects (store : List Record) (params : Record)
    (h : getField params "id" = .undefined) :
    update store params =
      { outcome := .error .missingId, store := store, storeCalls := 0 } := by
  simp [update, h, truthy]

/-- C7 (witness): `update(\x7bfirstName: 'A'\x7d)` rejects before any store call. -/
theorem C7_missing_id_rejects_witness :
    update [] [("firstName", JSVal.str "A")] =
      { outcome := .error .missingId, store := [], storeCalls := 0 } :=
  C7_missing_id_rejects [] [("firstName", JSVal.str "A")] rfl

/-- C10: `update` rejects for every payload whose id is falsy — 0, the
empty string, `false`, `null`, or absent — with no store call, so no record
with such an identifier can be updated through this operation. -/
theorem C10_falsy_id_rejects (store : List Record) (params : Record)
    (h : getField params "id" = .num 0 ∨ getField params "id" = .str "" ∨
         getField params "id" = .bool false ∨ getField params "id" = .null ∨
         getField params "id" = .undefined) :
    update store params =
      { outcome := .error .missingId, store := store, storeCalls := 0 } := by
  rcases h with h | h | h | h | h <;> simp [update, h, truthy]

/-- C10 (witness): a record with id 0 exists in the store, yet updating it
errors and leaves the store untouched. -/
theorem C10_falsy_id_rejects_witness :
    update [[("id", JSVal.num 0), ("x", JSVal.num 1)]]
        [("id", JSVal.num 0), ("x", JSVal.num 2)] =
      { outcome := .error .missingId,
        store := [[("id", JSVal.num 0), ("x", JSVal.num 1)]], storeCalls := 0 } :=
  C10_falsy_id_rejects [[("id", JSVal.num 0), ("x", JSVal.num 1)]]
    [("id", JSVal.num 0), ("x", JSVal.num 2)] (Or.inl rfl)

/-- C8 (counterexample) — a string index specification without a separator
fires none of the four normalization branches and silently yields an empty
option list instead of an error ("email" is the repository's own test
configuration). -/
theorem C8_counterexample :
    branchesFired (.strSpec "email") = 0 ∧
    processIndexOptions (.strSpec "email") = [] := ⟨rfl, rfl⟩

/-- C8 (amended): at most one normalization branch fires per index
specification (the branches are mutually exclusive), but a string with no
separator fires none of them, yields an empty option list, and index
creation still proceeds silently with only the index name rather than
raising an error. -/
theorem C8_branches_at_most_one :
    (∀ o, branchesFired o ≤ 1) ∧
    (∀ s, includesDot s = false →
      branchesFired (.strSpec s) = 0 ∧ processIndexOptions (.strSpec s) = []) ∧
    (∀ st tbl name s, includesDot s = false →
      decide (name ∈ indexesOf st tbl) = false →
      (createIndexesIfNotExist st tbl [(name, .strSpec s)]).2 =
        [DbCall.indexCreate tbl name []]) := by
  refine ⟨?_, ?_, ?_⟩
  · intro o
    cases o <;>
      simp only [branchesFired, isDottedString, jsIsArray, jsTypeofObject,
        jsTypeofFunction] <;>
      split_ifs <;> simp_all
  · intro s hs
    exact ⟨by simp [branchesFired, isDottedString, jsIsArray, jsTypeofObject,
        jsTypeofFunction, hs],
      by simp [processIndexOptions, hs]⟩
  · intro st tbl name s hs hmem
    simp [createIndexesIfNotExist, hmem, processIndexOptions, hs]

/-- C8 (witness): the dotless string "email" fires no branch, yet the index
is still created with only its name. -/
theorem C8_branches_at_most_one_witness :
    branchesFired (.strSpec "email") ≤ 1 ∧
    (createIndexesIfNotExist ⟨["User"], []⟩ "User" [("email", .strSpec "email")]).2 =
      [DbCall.indexCreate "User" "email" []] :=
  ⟨C8_branches_at_most_one.1 (.strSpec "email"),
   C8_branches_at_most_one.2.2 ⟨["User"], []⟩ "User" "email" "email"
     (by decide) (by decide)⟩

/-- Ensuring a table leaves the index list untouched. -/
lemma createTableIfNotExists_indexes (s : DbState) (tbl : String) :
    ((createTableIfNotExists s tbl).1).indexes = s.indexes := by
  simp only [createTableIfNotExists]
  split <;> rfl

/-- After ensuring a table, the table is present. -/
lemma createTableIfNotExists_mem (s : DbState) (tbl : String) :
    tbl ∈ ((createTableIfNotExists s tbl).1).tables := by
  simp only [createTableIfNotExists]
  split
  next h => exact h
  next h => simp

/-- Ensuring an already-present table changes nothing and issues no call. -/
lemma createTableIfNotExists_noop (s : DbState) (tbl : String)
    (h : tbl ∈ s.tables) : createTableIfNotExists s tbl = (s, []) := by
  simp [createTableIfNotExists, h]

/-- The index list after ensuring indexes: the old list plus the names that
were missing. -/
lemma indexesOf_createIndexes (s : DbState) (tbl : String)
    (cfg : List (String × IndexSpec)) :
    indexesOf (createIndexesIfNotExist s tbl cfg).1 tbl =
      indexesOf s tbl ++
        (cfg.filter (fun q => !decide (q.1 ∈ indexesOf s tbl))).map (fun q => q.1) := by
  simp only [createIndexesIfNotExist, indexesOf]
  rw [List.filterMap_append, List.filterMap_map]
  congr 1
  induction cfg.filter (fun q => !decide (q.1 ∈ s.indexes.filterMap
      (fun p => if p.1 = tbl then some p.2 else none))) with
  | nil => rfl
  | cons a t ih => simpa [List.filterMap_cons, Function.comp] using ih

/-- Ensuring indexes that all already exist changes nothing and issues no
creation call. -/
lemma createIndexes_noop (s : DbState) (tbl : String)
    (cfg : List (String × IndexSpec)) (h : ∀ p ∈ cfg, p.1 ∈ indexesOf s tbl) :
    createIndexesIfNotExist s tbl cfg = (s, []) := by
  have hfil : cfg.filter (fun q => !decide (q.1 ∈ indexesOf s tbl)) = [] := by
    rw [List.filter_eq_nil_iff]
    intro a ha
    simp [h a ha]
  simp [createIndexesIfNotExist, hfil]

/-- C9: schema bootstrap is idempotent — running `createTable` a second
time with the same table name and index configuration leaves the store
state unchanged and issues no create-table or create-index call. -/
theorem C9_idempotent_bootstrap (s : DbState) (tbl : String)
    (cfg : List (String × IndexSpec)) :
    createTable (createTable s tbl cfg).1 tbl cfg = ((createTable s tbl cfg).1, []) := by
  have htbl : tbl ∈ ((createTable s tbl cfg).1).tables :=
    createTableIfNotExists_mem s tbl
  have hidx : ∀ p ∈ cfg, p.1 ∈ indexesOf (createTable s tbl cfg).1 tbl := by
    intro p hp
    have : (createTable s tbl cfg).1 =
        (createIndexesIfNotExist (createTableIfNotExists s tbl).1 tbl cfg).1 := rfl
    rw [this, indexesOf_createIndexes]
    by_cases hm : p.1 ∈ indexesOf (createTableIfNotExists s tbl).1 tbl
    · exact List.mem_append_left _ hm
    · refine List.mem_append_right _ ?_
      refine List.mem_map.mpr ⟨p, ?_, rfl⟩
      rw [List.mem_filter]
      exact ⟨hp, by simp [hm]⟩
  obtain ⟨s2, hS⟩ : ∃ s2, (createTable s tbl cfg).1 = s2 := ⟨_, rfl⟩
  rw [hS] at htbl hidx ⊢
  simp only [createTable]
  rw [createTableIfNotExists_noop s2 tbl htbl]
  simp [createIndexes_noop s2 tbl cfg hidx]

end OctobusRethinkDB

